import Mathlib

/-!
Shallow embedding of the OpenClaw community-skills validator
(`skills/community-skills/validate-skill.js`, class `CommunitySkillsValidator`).

Strings are modelled as `List Char`.  JavaScript numbers that the script
only ever compares against non-negative integer thresholds (star counts,
fork counts, epoch-millisecond timestamps) are modelled as `Nat`; a missing
JSON field is `none`.  The effectful pieces (HTTP requests, the cache file,
`Date.now()`) are modelled by passing their observed outcome explicitly:
an `Except` value for a request, an `Option Cache` for the cache file, and
a `now : Nat` for the clock.
-/

namespace OpenClaw

/-- Milliseconds per day, the divisor used in `calculateSafetyScore`
(`1000 * 60 * 60 * 24`). -/
def msPerDay : Nat := 1000 * 60 * 60 * 24

/-- `this.cacheTimeout = 60 * 60 * 1000` (one hour, in milliseconds). -/
def cacheTimeout : Nat := 60 * 60 * 1000

/-- The GitHub repository metadata consumed by `calculateSafetyScore`.
`stargazers_count` / `forks_count` are `none` when the JSON field is
absent; `updated_at` is the parsed epoch-millisecond instant of the
`updated_at` ISO string, `none` when absent or unparsable (JavaScript's
`new Date(undefined)` is an invalid date whose comparisons are all false);
`description` is `none` when absent, null or empty (falsy); `license`
records truthiness of the `license` field. -/
structure RepoInfo where
  stargazers_count : Option Nat
  forks_count : Option Nat
  updated_at : Option Nat
  description : Option (List Char)
  license : Bool
deriving Repr, DecidableEq

/-- The `{}` object returned by `fetchRepoInfo` on failure. -/
def emptyRepoInfo : RepoInfo :=
  { stargazers_count := none, forks_count := none, updated_at := none
    description := none, license := false }

/-- `fetchRepoInfo(owner, repo)`: the `try` block performs the request and
parses its JSON; the `catch` block turns any failure into `{}`.  The
request-and-parse outcome is passed in as an `Except` value (the `owner` /
`repo` pair only selects the URL and does not otherwise affect the
result). -/
def fetchRepoInfo (response : Except Unit RepoInfo) : RepoInfo :=
  match response with
  | .ok info => info
  | .error _ => emptyRepoInfo

/-- Star bucket of `calculateSafetyScore`:
`>= 100 → 3`, `>= 20 → 2`, `>= 5 → 1`, else 0. -/
def starPoints (s : Nat) : Nat :=
  if 100 ≤ s then 3 else if 20 ≤ s then 2 else if 5 ≤ s then 1 else 0

/-- Fork bucket: `>= 10 → 2`, `>= 2 → 1`, else 0; a missing
`forks_count` compares false against every threshold. -/
def forkPoints : Option Nat → Nat
  | some f => if 10 ≤ f then 2 else if 2 ≤ f then 1 else 0
  | none => 0

/-- Recency bucket: `daysSinceUpdate <= 30 → 3`, `<= 90 → 2`, `<= 180 → 1`,
else 0, with `daysSinceUpdate = (now - lastUpdate) / msPerDay`; the
comparisons are carried out on milliseconds, which is equivalent.  A
missing or unparsable `updated_at` yields `NaN` days, so no points. -/
def updatePoints (now : Nat) : Option Nat → Nat
  | some t =>
      if now - t ≤ 30 * msPerDay then 3
      else if now - t ≤ 90 * msPerDay then 2
      else if now - t ≤ 180 * msPerDay then 1
      else 0
  | none => 0

/-- Description bucket: `repoInfo.description && repoInfo.description.length > 10`. -/
def descPoints : Option (List Char) → Nat
  | some d => if 10 < d.length then 1 else 0
  | none => 0

/-- License bucket: `if (repoInfo.license) score += 1`. -/
def licensePoints : Bool → Nat
  | true => 1
  | false => 0

/-- `calculateSafetyScore(repoInfo)`.  The guard
`if (!repoInfo || !repoInfo.stargazers_count) return 0;` fires both when
the field is absent and when it is `0` (both are falsy); otherwise the
five buckets are summed. -/
def calculateSafetyScore (now : Nat) (info : RepoInfo) : Nat :=
  match info.stargazers_count with
  | none => 0
  | some 0 => 0
  | some s =>
      starPoints s + forkPoints info.forks_count +
        updatePoints now info.updated_at + descPoints info.description +
        licensePoints info.license

/-- Modelled from the spec: the scoring formula as §4.4 words it —
"additive over independent buckets, each capped", with no star-count gate
on the other buckets.  Kept for comparison with `calculateSafetyScore`. -/
def additiveSafetyScore (now : Nat) (info : RepoInfo) : Nat :=
  (match info.stargazers_count with
    | some s => starPoints s
    | none => 0) +
    forkPoints info.forks_count + updatePoints now info.updated_at +
    descPoints info.description + licensePoints info.license

/-! ### String helpers (JavaScript `toLowerCase`, `trim`, `includes`) -/

/-- `String.prototype.toLowerCase` on the ASCII range: `A`–`Z` map to
`a`–`z`, every other character is unchanged. -/
def lowerChar : Char → Char
  | 'A' => 'a' | 'B' => 'b' | 'C' => 'c' | 'D' => 'd' | 'E' => 'e'
  | 'F' => 'f' | 'G' => 'g' | 'H' => 'h' | 'I' => 'i' | 'J' => 'j'
  | 'K' => 'k' | 'L' => 'l' | 'M' => 'm' | 'N' => 'n' | 'O' => 'o'
  | 'P' => 'p' | 'Q' => 'q' | 'R' => 'r' | 'S' => 's' | 'T' => 't'
  | 'U' => 'u' | 'V' => 'v' | 'W' => 'w' | 'X' => 'x' | 'Y' => 'y'
  | 'Z' => 'z'
  | c => c

/-- Lowercasing of a whole string. -/
def strToLower (s : List Char) : List Char := s.map lowerChar

/-- The whitespace characters removed by `String.prototype.trim`
(restricted to the ASCII ones). -/
def spaceLike (c : Char) : Bool :=
  c = ' ' || c = '\t' || c = '\n' || c = '\r' || c = '\x0b' || c = '\x0c'

/-- `String.prototype.trim`: drop whitespace from both ends. -/
def trimChars (s : List Char) : List Char :=
  ((s.dropWhile spaceLike).reverse.dropWhile spaceLike).reverse

/-- `p` is a prefix of `s` (Boolean, by direct recursion). -/
def isPre : List Char → List Char → Bool
  | [], _ => true
  | _ :: _, [] => false
  | a :: p, b :: s => a == b && isPre p s

/-- `String.prototype.includes`: `needle` occurs contiguously in `hay`. -/
def strContains (hay needle : List Char) : Bool :=
  hay.tails.any fun t => isPre needle t

/-! ### Markdown link extractor (`parseSkillsFromReadme`) -/

/-- One candidate skill parsed from the approved-list README.  The five
string fields are the ones built by `parseSkillsFromReadme`;
`repoInfo` / `safetyScore` are the properties that `validateSkill` later
assigns onto the matched entry (absent — `none` — on a freshly parsed
entry). -/
structure SkillEntry where
  name : List Char
  owner : List Char
  repo : List Char
  url : List Char
  parsedFrom : List Char
  repoInfo : Option RepoInfo
  safetyScore : Option Nat
deriving Repr, DecidableEq

/-- Split `l` at the first occurrence of `c`: `some (before, after)` with
`l = before ++ c :: after` and `c ∉ before`, or `none` when `c ∉ l`. -/
def splitAtChar (c : Char) : List Char → Option (List Char × List Char)
  | [] => none
  | a :: r =>
      if a = c then some ([], r)
      else
        match splitAtChar c r with
        | some (pre, post) => some (a :: pre, post)
        | none => none

/-- The literal the regex requires between the closing `]` of the label
and the owner segment. -/
def linkLit : List Char := "(https://github.com/".toList

/-- The regex `\[([^\]]+)\]\(https:\/\/github\.com\/([^\/]+)\/([^)]+)\)`
attempted with the `[` anchored at the head of `'[' :: r` (this function
receives `r`).  Each character class excludes its closing delimiter, so
the greedy `+` runs are exactly "up to the first delimiter" and the match
at a given start position is deterministic: label = the non-empty run up
to the first `]`, then the literal `(https://github.com/`, owner = the
non-empty run up to the first `/`, repo segment = the non-empty run up to
the first `)`. -/
def matchAfterBracket (r : List Char) : Option (List Char × List Char × List Char) :=
  match splitAtChar ']' r with
  | none => none
  | some (label, rest1) =>
      if label = [] then none
      else if isPre linkLit rest1 then
        match splitAtChar '/' (rest1.drop linkLit.length) with
        | none => none
        | some (owner, rest2) =>
            if owner = [] then none
            else
              match splitAtChar ')' rest2 with
              | none => none
              | some (repoSeg, _) =>
                  if repoSeg = [] then none else some (label, owner, repoSeg)
      else none

/-- The regex attempted at one start position: it can only start on a `[`. -/
def matchAt : List Char → Option (List Char × List Char × List Char)
  | [] => none
  | c :: r => if c = '[' then matchAfterBracket r else none

/-- `line.match(regex)`: the leftmost position at which the regex
matches, scanning start positions left to right. -/
def findMatch : List Char → Option (List Char × List Char × List Char)
  | [] => none
  | c :: r =>
      match matchAt (c :: r) with
      | some m => some m
      | none => findMatch r

/-- `repo.replace(/\.git$/, '')`: remove one trailing `.git`. -/
def stripGit (r : List Char) : List Char :=
  if ".git".toList.isSuffixOf r then r.take (r.length - 4) else r

/-- The `skills.push({...})` object literal built for a matched line.
Note that the `url` template string interpolates the *raw* `repo` capture
(`String.prototype.replace` returns a new string; the `repo` variable that
the template reads still carries any `.git` suffix). -/
def mkEntry (label owner repoSeg line : List Char) : SkillEntry :=
  { name := trimChars (strToLower label)
    owner := owner
    repo := stripGit repoSeg
    url := "https://github.com/".toList ++ owner ++ '/' :: repoSeg
    parsedFrom := trimChars line
    repoInfo := none
    safetyScore := none }

/-- Processing of one line of the README: push an entry when the regex
matches, skip the line otherwise. -/
def parseLine (line : List Char) : Option SkillEntry :=
  (findMatch line).map fun m => mkEntry m.1 m.2.1 m.2.2 line

/-- `content.split('\n')` (never returns an empty list of lines). -/
def splitLines : List Char → List (List Char)
  | [] => [[]]
  | c :: r =>
      if c = '\n' then [] :: splitLines r
      else
        match splitLines r with
        | [] => [[c]]
        | l :: ls => (c :: l) :: ls

/-- `parseSkillsFromReadme(content)`: split into lines, push one entry per
line on which the regex matches, in document order, skipping the rest. -/
def parseSkillsFromReadme (content : List Char) : List SkillEntry :=
  (splitLines content).filterMap parseLine

/-- Joining lines back with `'\n'` (left inverse of `splitLines` on
newline-free lines); used to state document-assembly properties. -/
def joinLines : List (List Char) → List Char
  | [] => []
  | [l] => l
  | l :: ls => l ++ '\n' :: joinLines ls

/-- A well-formed markdown link line `[label](https://github.com/owner/repoSeg)`. -/
def wfLine (label owner repoSeg : List Char) : List Char :=
  '[' :: (label ++ (']' :: (linkLit ++ (owner ++ ('/' :: (repoSeg ++ [')']))))))

/-! ### Approval cache and `fetchApprovedSkills` -/

/-- The persisted cache file `{timestamp: Date.now(), skills}`. -/
structure Cache where
  timestamp : Nat
  skills : List SkillEntry
deriving Repr, DecidableEq

/-- The error message of the `throw` in `fetchApprovedSkills`. -/
def noListError : List Char :=
  "Cannot validate skills - no approved list available".toList

/-- Observable outcome of one `fetchApprovedSkills()` call: its returned
value (or thrown error), whether the remote fetch was attempted, and the
cache written by `saveCache` (if any). -/
structure FetchOutcome where
  result : Except (List Char) (List SkillEntry)
  remoteAttempted : Bool
  savedCache : Option Cache
deriving Repr

/-- The remote branch of `fetchApprovedSkills`: the HTTP request, JSON
envelope parse and base64 decode are summarised by the
`remote : Except Unit (List Char)` argument (its `.ok` value is the decoded
README text).  On success the README is parsed and the result cached; on
failure (`catch`) the cache is re-read and used as a stale fallback, and
with no cache the call throws. -/
def fetchRemote (cache : Option Cache) (now : Nat)
    (remote : Except Unit (List Char)) : FetchOutcome :=
  match remote with
  | .ok content =>
      let skills := parseSkillsFromReadme content
      { result := .ok skills, remoteAttempted := true
        savedCache := some { timestamp := now, skills := skills } }
  | .error _ =>
      match cache with
      | some c => { result := .ok c.skills, remoteAttempted := true, savedCache := none }
      | none => { result := .error noListError, remoteAttempted := true, savedCache := none }

/-- `fetchApprovedSkills()`: `loadCache()` yields `cache` (`none` for a
missing or unreadable file), `Date.now()` yields `now`.  A fresh cache
(`Date.now() - cache.timestamp < this.cacheTimeout`) short-circuits the
remote fetch; `Nat` subtraction truncates at 0 exactly as the JavaScript
comparison treats a negative difference (both count as below the
timeout). -/
def fetchApprovedSkills (cache : Option Cache) (now : Nat)
    (remote : Except Unit (List Char)) : FetchOutcome :=
  match cache with
  | some c =>
      if now - c.timestamp < cacheTimeout then
        { result := .ok c.skills, remoteAttempted := false, savedCache := none }
      else fetchRemote cache now remote
  | none => fetchRemote cache now remote

/-! ### `validateSkill` -/

/-- The rejection reason string. -/
def notFoundReason : List Char :=
  "Not found in awesome-openclaw-skills repository".toList

/-- The `approvedSkills.find(...)` predicate applied to an entry, with the
already-normalized query `q`:
`s.name === q || s.repo.toLowerCase() === q || s.repo.toLowerCase().includes(q)`. -/
def entryMatches (q : List Char) (s : SkillEntry) : Bool :=
  s.name == q || strToLower s.repo == q || strContains (strToLower s.repo) q

/-- The value returned by `validateSkill` (the rejected branch carries a
`reason`; the approved branch carries the matched-and-augmented entry and
its safety score). -/
structure ValidationResult where
  approved : Bool
  reason : Option (List Char)
  skill : Option SkillEntry
  safetyScore : Option Nat
deriving Repr, DecidableEq

/-- `validateSkill(skillName)`, with the approved list (the result of
`fetchApprovedSkills`), the metadata-fetch outcome for the matched entry's
repository, and the clock passed explicitly.  `Array.prototype.find`
returns the first element, in array order, satisfying the predicate.  On a
match the code assigns `skill.repoInfo` and `skill.safetyScore` onto the
found entry object before returning it. -/
def validateSkill (approvedSkills : List SkillEntry) (skillName : List Char)
    (repoResponse : Except Unit RepoInfo) (now : Nat) : ValidationResult :=
  let normalizedName := trimChars (strToLower skillName)
  match approvedSkills.find? (entryMatches normalizedName) with
  | none =>
      { approved := false, reason := some notFoundReason
        skill := none, safetyScore := none }
  | some skill =>
      let repoInfo := fetchRepoInfo repoResponse
      let safetyScore := calculateSafetyScore now repoInfo
      let skill := { skill with repoInfo := some repoInfo, safetyScore := some safetyScore }
      { approved := true, reason := none
        skill := some skill, safetyScore := some safetyScore }

/-- Modelled from the spec: the tiered lookup rule of §4.3 — "first entry
where `entry.name == name`, else `entry.repo == name` (case-insensitive),
else `entry.repo` contains `name` as substring".  Each tier scans the
whole list before the next tier is tried.  Kept for comparison with the
single-pass `find` of `validateSkill`. -/
def tieredFind (q : List Char) (skills : List SkillEntry) : Option SkillEntry :=
  match skills.find? (fun s => s.name == q) with
  | some s => some s
  | none =>
      match skills.find? (fun s => strToLower s.repo == q) with
      | some s => some s
      | none => skills.find? (fun s => strContains (strToLower s.repo) q)

/-! ### Helper lemmas -/

theorem splitAtChar_append (c : Char) (l₁ l₂ : List Char) (h : c ∉ l₁) :
    splitAtChar c (l₁ ++ c :: l₂) = some (l₁, l₂) := by
  induction l₁ with
  | nil => simp [splitAtChar]
  | cons a t ih =>
      have ha : a ≠ c := fun hac => h (hac ▸ List.mem_cons_self a t)
      have ht : c ∉ t := fun hct => h (List.mem_cons_of_mem a hct)
      simp [splitAtChar, ha, ih ht]

theorem isPre_append (p r : List Char) : isPre p (p ++ r) = true := by
  induction p with
  | nil => simp [isPre]
  | cons a t ih => simp [isPre, ih]

theorem matchAfterBracket_wf (label owner repoSeg : List Char)
    (hl : label ≠ [] ∧ ']' ∉ label) (ho : owner ≠ [] ∧ '/' ∉ owner)
    (hr : repoSeg ≠ [] ∧ ')' ∉ repoSeg) :
    matchAfterBracket
        (label ++ (']' :: (linkLit ++ (owner ++ ('/' :: (repoSeg ++ [')'])))))) =
      some (label, owner, repoSeg) := by
  have h1 := splitAtChar_append ']' label
    (linkLit ++ (owner ++ ('/' :: (repoSeg ++ [')'])))) hl.2
  have h2 := splitAtChar_append '/' owner (repoSeg ++ [')']) ho.2
  have h3 := splitAtChar_append ')' repoSeg [] hr.2
  have hlit := isPre_append linkLit (owner ++ ('/' :: (repoSeg ++ [')'])))
  have hdrop := List.drop_left linkLit (owner ++ ('/' :: (repoSeg ++ [')']))) (α := Char)
  simp only [matchAfterBracket, h1, hl.1, hlit, hdrop, h2, ho.1, h3, hr.1,
    if_false, if_true, ite_true, ite_false]

theorem findMatch_wfLine (label owner repoSeg : List Char)
    (hl : label ≠ [] ∧ ']' ∉ label) (ho : owner ≠ [] ∧ '/' ∉ owner)
    (hr : repoSeg ≠ [] ∧ ')' ∉ repoSeg) :
    findMatch (wfLine label owner repoSeg) = some (label, owner, repoSeg) := by
  have h := matchAfterBracket_wf label owner repoSeg hl ho hr
  simp only [wfLine, findMatch, matchAt, h, if_true]

theorem parseLine_wfLine (label owner repoSeg : List Char)
    (hl : label ≠ [] ∧ ']' ∉ label) (ho : owner ≠ [] ∧ '/' ∉ owner)
    (hr : repoSeg ≠ [] ∧ ')' ∉ repoSeg) :
    parseLine (wfLine label owner repoSeg) =
      some (mkEntry label owner repoSeg (wfLine label owner repoSeg)) := by
  simp [parseLine, findMatch_wfLine label owner repoSeg hl ho hr]

theorem matchAt_ne_bracket (c : Char) (r : List Char) (h : c ≠ '[') :
    matchAt (c :: r) = none := by
  simp [matchAt, h]

theorem findMatch_no_bracket (l : List Char) (h : '[' ∉ l) : findMatch l = none := by
  induction l with
  | nil => rfl
  | cons c r ih =>
      have hc : c ≠ '[' := fun hc => h (hc ▸ List.mem_cons_self c r)
      have hr : '[' ∉ r := fun hm => h (List.mem_cons_of_mem c hm)
      simp [findMatch, matchAt_ne_bracket c r hc, ih hr]

theorem parseLine_no_bracket (l : List Char) (h : '[' ∉ l) : parseLine l = none := by
  simp [parseLine, findMatch_no_bracket l h]

theorem splitLines_no_newline (l : List Char) (h : '\n' ∉ l) :
    splitLines l = [l] := by
  induction l with
  | nil => rfl
  | cons c r ih =>
      have hc : c ≠ '\n' := fun hc => h (hc ▸ List.mem_cons_self c r)
      have hr : '\n' ∉ r := fun hm => h (List.mem_cons_of_mem c hm)
      simp [splitLines, hc, ih hr]

theorem splitLines_ne_nil (l : List Char) : splitLines l ≠ [] := by
  induction l with
  | nil => simp [splitLines]
  | cons c r ih =>
      by_cases hc : c = '\n'
      · simp [splitLines, hc]
      · simp only [splitLines, if_neg hc]
        cases hsp : splitLines r with
        | nil => simp
        | cons a t => simp

theorem splitLines_newline_append (l r : List Char) (h : '\n' ∉ l) :
    splitLines (l ++ '\n' :: r) = l :: splitLines r := by
  induction l with
  | nil => simp [splitLines]
  | cons c t ih =>
      have hc : c ≠ '\n' := fun hc => h (hc ▸ List.mem_cons_self c t)
      have ht : '\n' ∉ t := fun hm => h (List.mem_cons_of_mem c hm)
      simp only [List.cons_append, splitLines, if_neg hc, List.append_eq, ih ht]

theorem splitLines_joinLines (ls : List (List Char)) (hne : ls ≠ [])
    (h : ∀ l ∈ ls, '\n' ∉ l) : splitLines (joinLines ls) = ls := by
  induction ls with
  | nil => exact absurd rfl hne
  | cons l t ih =>
      cases t with
      | nil =>
          simp only [joinLines]
          exact splitLines_no_newline l (h l (List.mem_cons_self l []))
      | cons m u =>
          have hl : '\n' ∉ l := h l (List.mem_cons_self l (m :: u))
          have ht : ∀ x ∈ m :: u, '\n' ∉ x := fun x hx =>
            h x (List.mem_cons_of_mem l hx)
          simp only [joinLines]
          rw [splitLines_newline_append l _ hl, ih (by simp) ht]

theorem starPoints_le (s : Nat) : starPoints s ≤ 3 := by
  unfold starPoints; split_ifs <;> omega

theorem forkPoints_le (o : Option Nat) : forkPoints o ≤ 2 := by
  cases o with
  | none => simp [forkPoints]
  | some f => simp only [forkPoints]; split_ifs <;> omega

theorem updatePoints_le (now : Nat) (o : Option Nat) : updatePoints now o ≤ 3 := by
  cases o with
  | none => simp [updatePoints]
  | some t => simp only [updatePoints]; split_ifs <;> omega

theorem descPoints_le (o : Option (List Char)) : descPoints o ≤ 1 := by
  cases o with
  | none => simp [descPoints]
  | some d => simp only [descPoints]; split_ifs <;> omega

theorem licensePoints_le (b : Bool) : licensePoints b ≤ 1 := by
  cases b <;> simp [licensePoints]

theorem starPoints_mono (s₁ s₂ : Nat) (h : s₁ ≤ s₂) :
    starPoints s₁ ≤ starPoints s₂ := by
  unfold starPoints; split_ifs <;> omega

theorem forkPoints_mono (f₁ f₂ : Nat) (h : f₁ ≤ f₂) :
    forkPoints (some f₁) ≤ forkPoints (some f₂) := by
  simp only [forkPoints]; split_ifs <;> omega

theorem updatePoints_mono (now t₁ t₂ : Nat) (h : t₁ ≤ t₂) :
    updatePoints now (some t₁) ≤ updatePoints now (some t₂) := by
  simp only [updatePoints]; split_ifs <;> omega

theorem calculateSafetyScore_pos_stars (now : Nat) (info : RepoInfo) (s : Nat)
    (hs : info.stargazers_count = some (s + 1)) :
    calculateSafetyScore now info =
      starPoints (s + 1) + forkPoints info.forks_count +
        updatePoints now info.updated_at + descPoints info.description +
        licensePoints info.license := by
  simp [calculateSafetyScore, hs]

/-! ### Claims about the safety scorer -/

/-- A metadata value with every trust signal strong but a star count of
exactly zero: the additive bucket formula of spec §4.4 awards it 7
points, while the code's opening guard returns 0. -/
def zeroStarRepo : RepoInfo :=
  { stargazers_count := some 0, forks_count := some 25
    updated_at := some (100 * msPerDay)
    description := some "a nice description".toList, license := true }

/-- The example repository of the claim: `stars=150, forks=25, updated 10
days ago, description length > 10, license present` (clock at day 100,
last update at day 90). -/
def exampleStrongRepo : RepoInfo :=
  { stargazers_count := some 150, forks_count := some 25
    updated_at := some (90 * msPerDay)
    description := some "a nice description".toList, license := true }

/-- C3, counterexample: `calculateSafetyScore` is not the additive bucket
sum on every metadata object — with `stargazers_count = 0` and every other
signal strong, the additive formula gives 7 but the code returns 0
(the `!repoInfo.stargazers_count` guard fires on a present-but-zero star
count). -/
theorem calculateSafetyScore_not_additive :
    calculateSafetyScore (100 * msPerDay) zeroStarRepo = 0 ∧
    additiveSafetyScore (100 * msPerDay) zeroStarRepo = 7 ∧
    calculateSafetyScore (100 * msPerDay) zeroStarRepo ≠
      additiveSafetyScore (100 * msPerDay) zeroStarRepo := by
  refine ⟨rfl, rfl, ?_⟩
  decide

/-- C3 (amended): `calculateSafetyScore` always lies in [0, 10] (it is a
`Nat`, so 0 ≤ it holds by type); whenever `stargazers_count` is present
and non-zero it equals the additive sum of the five capped buckets
(stars ≥100→3 / ≥20→2 / ≥5→1, forks ≥10→2 / ≥2→1, days since update
≤30→3 / ≤90→2 / ≤180→1, description present with length > 10 → 1,
license present → 1), and with an absent or zero star count it is 0; the
example repo with stars=150, forks=25, updated 10 days ago, a long
description and a license scores at least 8 (in fact exactly 10). -/
theorem calculateSafetyScore_range_additive :
    (∀ now info, calculateSafetyScore now info ≤ 10) ∧
    (∀ now info, calculateSafetyScore now info =
      if info.stargazers_count.getD 0 = 0 then 0
      else additiveSafetyScore now info) ∧
    8 ≤ calculateSafetyScore (100 * msPerDay) exampleStrongRepo := by
  refine ⟨?_, ?_, by decide⟩
  · intro now info
    rcases hs : info.stargazers_count with _ | s
    · simp [calculateSafetyScore, hs]
    · cases s with
      | zero => simp [calculateSafetyScore, hs]
      | succ n =>
          rw [calculateSafetyScore_pos_stars now info n hs]
          have h1 := starPoints_le (n + 1)
          have h2 := forkPoints_le info.forks_count
          have h3 := updatePoints_le now info.updated_at
          have h4 := descPoints_le info.description
          have h5 := licensePoints_le info.license
          omega
  · intro now info
    rcases hs : info.stargazers_count with _ | s
    · simp [calculateSafetyScore, hs]
    · cases s with
      | zero => simp [calculateSafetyScore, hs]
      | succ n =>
          rw [calculateSafetyScore_pos_stars now info n hs]
          simp [additiveSafetyScore, hs]

/-- C4: a failing metadata fetch is absorbed into the empty metadata
object rather than an error, and any metadata without a
`stargazers_count` field — the empty object included — scores exactly 0
whatever its other fields hold. -/
theorem fetchRepoInfo_failure_scores_zero :
    (∀ e : Unit, fetchRepoInfo (.error e) = emptyRepoInfo) ∧
    (∀ now info, info.stargazers_count = none →
      calculateSafetyScore now info = 0) := by
  refine ⟨fun _ => rfl, fun now info hs => ?_⟩
  simp [calculateSafetyScore, hs]

/-- C4, witness: the general theorem applied to the failed fetch and to a
no-stars metadata object that is otherwise maximally strong. -/
theorem fetchRepoInfo_failure_scores_zero_witness :
    fetchRepoInfo (.error ()) = emptyRepoInfo ∧
    calculateSafetyScore 0
      { stargazers_count := none, forks_count := some 1000
        updated_at := some 0, description := some "a nice description".toList
        license := true } = 0 :=
  ⟨fetchRepoInfo_failure_scores_zero.1 (),
   fetchRepoInfo_failure_scores_zero.2 0 _ rfl⟩

/-- C9: the safety score is monotone non-decreasing separately in the
star count, the fork count, and the recency of the last update (a later
`updated_at` instant means fewer days since update). -/
theorem calculateSafetyScore_monotone :
    (∀ (now : Nat) (info : RepoInfo) (s₁ s₂ : Nat), s₁ ≤ s₂ →
      calculateSafetyScore now { info with stargazers_count := some s₁ } ≤
        calculateSafetyScore now { info with stargazers_count := some s₂ }) ∧
    (∀ (now : Nat) (info : RepoInfo) (f₁ f₂ : Nat), f₁ ≤ f₂ →
      calculateSafetyScore now { info with forks_count := some f₁ } ≤
        calculateSafetyScore now { info with forks_count := some f₂ }) ∧
    (∀ (now : Nat) (info : RepoInfo) (t₁ t₂ : Nat), t₁ ≤ t₂ →
      calculateSafetyScore now { info with updated_at := some t₁ } ≤
        calculateSafetyScore now { info with updated_at := some t₂ }) := by
  refine ⟨fun now info s₁ s₂ h => ?_, fun now info f₁ f₂ h => ?_,
    fun now info t₁ t₂ h => ?_⟩
  · obtain ⟨st, fk, up, de, li⟩ := info
    cases s₁ with
    | zero => simp [calculateSafetyScore]
    | succ n =>
        cases s₂ with
        | zero => omega
        | succ m =>
            simp only [calculateSafetyScore]
            have := starPoints_mono (n + 1) (m + 1) h
            omega
  · obtain ⟨st, fk, up, de, li⟩ := info
    rcases st with _ | s
    · simp [calculateSafetyScore]
    · cases s with
      | zero => simp [calculateSafetyScore]
      | succ n =>
          simp only [calculateSafetyScore]
          have := forkPoints_mono f₁ f₂ h
          omega
  · obtain ⟨st, fk, up, de, li⟩ := info
    rcases st with _ | s
    · simp [calculateSafetyScore]
    · cases s with
      | zero => simp [calculateSafetyScore]
      | succ n =>
          simp only [calculateSafetyScore]
          have := updatePoints_mono now t₁ t₂ h
          omega

/-- C9, witness: monotonicity applied at concrete star, fork and
update-time pairs. -/
theorem calculateSafetyScore_monotone_witness :
    calculateSafetyScore 0 { zeroStarRepo with stargazers_count := some 3 } ≤
      calculateSafetyScore 0 { zeroStarRepo with stargazers_count := some 50 } ∧
    calculateSafetyScore 0 { zeroStarRepo with forks_count := some 1 } ≤
      calculateSafetyScore 0 { zeroStarRepo with forks_count := some 12 } ∧
    calculateSafetyScore (200 * msPerDay)
        { exampleStrongRepo with updated_at := some 0 } ≤
      calculateSafetyScore (200 * msPerDay)
        { exampleStrongRepo with updated_at := some (195 * msPerDay) } :=
  ⟨calculateSafetyScore_monotone.1 0 zeroStarRepo 3 50 (by decide),
   calculateSafetyScore_monotone.2.1 0 zeroStarRepo 1 12 (by decide),
   calculateSafetyScore_monotone.2.2 (200 * msPerDay) exampleStrongRepo 0
     (195 * msPerDay) (by decide)⟩

/-- C10: a `stargazers_count` that is present and equal to 0 makes the
whole score 0: the guard `!repoInfo.stargazers_count` treats the number 0
as falsy, so a zero star count suppresses every other bucket. -/
theorem zero_star_count_scores_zero (now : Nat) (info : RepoInfo)
    (h : info.stargazers_count = some 0) :
    calculateSafetyScore now info = 0 := by
  simp [calculateSafetyScore, h]

/-- C10, witness: a zero-star repository whose every other signal is
strong still scores 0. -/
theorem zero_star_count_scores_zero_witness :
    calculateSafetyScore (100 * msPerDay) zeroStarRepo = 0 :=
  zero_star_count_scores_zero (100 * msPerDay) zeroStarRepo rfl

/-! ### Claims about `fetchApprovedSkills` -/

/-- C2: when the remote fetch fails, any existing cache — fresh or
expired — is returned instead of an error, and with no cache the call
throws the no-approved-list-available error (so no entries are
returned). -/
theorem fetchApprovedSkills_stale_fallback :
    (∀ (c : Cache) (now : Nat),
      (fetchApprovedSkills (some c) now (.error ())).result = .ok c.skills) ∧
    (∀ now : Nat,
      (fetchApprovedSkills none now (.error ())).result = .error noListError) := by
  constructor
  · intro c now
    simp only [fetchApprovedSkills, fetchRemote]
    split_ifs <;> rfl
  · intro now
    rfl

/-- C5: a cache younger than the TTL (one hour) short-circuits: the
cached entries are returned and the remote fetch is not attempted; a
cache at least TTL old always leads to an attempted remote fetch. -/
theorem fetchApprovedSkills_freshness :
    (∀ (c : Cache) (now : Nat) (remote : Except Unit (List Char)),
      now - c.timestamp < cacheTimeout →
        fetchApprovedSkills (some c) now remote =
          { result := .ok c.skills, remoteAttempted := false, savedCache := none }) ∧
    (∀ (c : Cache) (now : Nat) (remote : Except Unit (List Char)),
      cacheTimeout ≤ now - c.timestamp →
        (fetchApprovedSkills (some c) now remote).remoteAttempted = true) := by
  constructor
  · intro c now remote h
    simp only [fetchApprovedSkills]
    rw [if_pos h]
  · intro c now remote h
    simp only [fetchApprovedSkills, fetchRemote]
    rw [if_neg (by omega)]
    rcases remote with _ | content <;> simp

/-- C5, witness: at `T = 0`, a call at `T' = cacheTimeout - 1` is served
from the cache with no remote fetch, and a call at `T' = cacheTimeout`
attempts the remote fetch. -/
theorem fetchApprovedSkills_freshness_witness :
    fetchApprovedSkills (some { timestamp := 0, skills := [] })
        (cacheTimeout - 1) (.error ()) =
      { result := .ok [], remoteAttempted := false, savedCache := none } ∧
    (fetchApprovedSkills (some { timestamp := 0, skills := [] })
        cacheTimeout (.error ())).remoteAttempted = true :=
  ⟨fetchApprovedSkills_freshness.1 { timestamp := 0, skills := [] }
      (cacheTimeout - 1) (.error ()) (by decide),
   fetchApprovedSkills_freshness.2 { timestamp := 0, skills := [] }
      cacheTimeout (.error ()) (by decide)⟩

/-! ### Claims about `validateSkill` -/

/-- An entry whose `repo` (`"myfootools"`) contains `"foo"` as a
substring but whose `name` is not `"foo"`; listed before `fooEntryB`. -/
def fooEntryA : SkillEntry :=
  { name := "alpha".toList, owner := "octo".toList, repo := "myfootools".toList
    url := "https://github.com/octo/myfootools".toList
    parsedFrom := [], repoInfo := none, safetyScore := none }

/-- An entry whose `name` is exactly `"foo"`. -/
def fooEntryB : SkillEntry :=
  { name := "foo".toList, owner := "pat".toList, repo := "other".toList
    url := "https://github.com/pat/other".toList
    parsedFrom := [], repoInfo := none, safetyScore := none }

/-- C1, counterexample: the lookup is a single left-to-right pass over
the disjunction of the three conditions, not the tiered rule of the
claim.  On the list `[fooEntryA, fooEntryB]` and query `"foo"`, the
tiered rule selects `fooEntryB` (the first name-equal entry), but
`validateSkill` returns `fooEntryA`, whose repo merely contains `"foo"`,
because it comes first in document order. -/
theorem validateSkill_not_tiered :
    (tieredFind "foo".toList [fooEntryA, fooEntryB]).map SkillEntry.name =
      some "foo".toList ∧
    ((validateSkill [fooEntryA, fooEntryB] "foo".toList (.error ()) 0).skill).map
        SkillEntry.name = some "alpha".toList := by
  constructor <;> rfl

/-- C1 (amended): `validateSkill` normalizes the query by lowercasing
and trimming, then selects the **first entry in document order — in a
single pass — satisfying the disjunction** name = query, or repo = query
case-insensitively, or repo contains the query as a substring (an exact
name match later in the list does not take precedence over an earlier
substring match).  On a match the result is approved and carries that
entry (augmented with the fetched metadata and its safety score); with
no match the result is not approved, carries no entry, and its reason
contains "Not found". -/
theorem validateSkill_first_match :
    ∀ (skills : List SkillEntry) (q : List Char) (resp : Except Unit RepoInfo)
      (now : Nat),
      (∀ s, skills.find? (entryMatches (trimChars (strToLower q))) = some s →
        entryMatches (trimChars (strToLower q)) s = true ∧
        (∃ pre post, skills = pre ++ s :: post ∧
          ∀ x ∈ pre, entryMatches (trimChars (strToLower q)) x = false) ∧
        validateSkill skills q resp now =
          { approved := true, reason := none
            skill := some { s with
              repoInfo := some (fetchRepoInfo resp),
              safetyScore := some (calculateSafetyScore now (fetchRepoInfo resp)) }
            safetyScore := some (calculateSafetyScore now (fetchRepoInfo resp)) }) ∧
      (skills.find? (entryMatches (trimChars (strToLower q))) = none →
        (∀ x ∈ skills, entryMatches (trimChars (strToLower q)) x = false) ∧
        validateSkill skills q resp now =
          { approved := false, reason := some notFoundReason
            skill := none, safetyScore := none } ∧
        strContains notFoundReason "Not found".toList = true) := by
  intro skills q resp now
  constructor
  · intro s hfind
    have hp := List.find?_some hfind
    obtain ⟨-, pre, post, hsplit, hpre⟩ := List.find?_eq_some.mp hfind
    refine ⟨hp, ⟨pre, post, hsplit, fun x hx => by simpa using hpre x hx⟩, ?_⟩
    simp only [validateSkill, hfind]
  · intro hfind
    refine ⟨fun x hx => by simpa using List.find?_eq_none.mp hfind x hx, ?_, by decide⟩
    simp only [validateSkill, hfind]

/-- C1, witness: the amended theorem applied to the two-entry list — the
approved branch at query `" FOO "` (exercising the normalization) and the
rejected branch at query `"nonexistent-xyz"`. -/
theorem validateSkill_first_match_witness :
    validateSkill [fooEntryA, fooEntryB] "  FOO ".toList (.error ()) 0 =
      { approved := true, reason := none
        skill := some { fooEntryA with
          repoInfo := some emptyRepoInfo, safetyScore := some 0 }
        safetyScore := some 0 } ∧
    validateSkill [fooEntryA, fooEntryB] "nonexistent-xyz".toList (.error ()) 0 =
      { approved := false, reason := some notFoundReason
        skill := none, safetyScore := none } ∧
    strContains notFoundReason "Not found".toList = true := by
  refine ⟨?_, ?_, ?_⟩
  · have h := (validateSkill_first_match [fooEntryA, fooEntryB] "  FOO ".toList
      (.error ()) 0).1 fooEntryA (by decide)
    exact h.2.2
  · have h := (validateSkill_first_match [fooEntryA, fooEntryB]
      "nonexistent-xyz".toList (.error ()) 0).2 (by decide)
    exact h.2.1
  · exact ((validateSkill_first_match [] "x".toList (.error ()) 0).2 rfl).2.2

/-! ### Lowercasing commutes with trimming -/

theorem spaceLike_lowerChar (c : Char) : spaceLike (lowerChar c) = spaceLike c := by
  unfold lowerChar
  split <;> rfl

theorem dropWhile_map_lower (l : List Char) :
    (l.map lowerChar).dropWhile spaceLike = (l.dropWhile spaceLike).map lowerChar := by
  induction l with
  | nil => rfl
  | cons c t ih =>
      by_cases h : spaceLike c
      · simp [List.dropWhile_cons, spaceLike_lowerChar, h, ih]
      · simp [List.dropWhile_cons, spaceLike_lowerChar, h]

theorem strToLower_trimChars (l : List Char) :
    strToLower (trimChars l) = trimChars (strToLower l) := by
  unfold strToLower trimChars
  rw [List.map_reverse, ← dropWhile_map_lower, List.map_reverse,
    ← dropWhile_map_lower]

/-! ### Claims about the markdown extractor -/

/-- C6: (i) the extractor processes a document line by line, producing —
in document order, without de-duplication — exactly the entries that
`parseLine` yields per line; (ii) on a well-formed line
`[label](https://github.com/owner/repoSeg)` it produces the entry with
`name` = lowercase(trim(label)), `owner` = the first path segment after
the host, and `repo` = the remaining segment with a trailing `.git`
stripped; (iii) a line with no `[` at all (hence no match) is skipped
silently. -/
theorem parseSkillsFromReadme_spec :
    (∀ (lines : List (List Char)), lines ≠ [] → (∀ l ∈ lines, '\n' ∉ l) →
      parseSkillsFromReadme (joinLines lines) = lines.filterMap parseLine) ∧
    (∀ label owner repoSeg : List Char,
      label ≠ [] → ']' ∉ label → owner ≠ [] → '/' ∉ owner →
      repoSeg ≠ [] → ')' ∉ repoSeg →
      parseLine (wfLine label owner repoSeg) =
        some { name := strToLower (trimChars label)
               owner := owner
               repo := stripGit repoSeg
               url := "https://github.com/".toList ++ owner ++ '/' :: repoSeg
               parsedFrom := trimChars (wfLine label owner repoSeg)
               repoInfo := none, safetyScore := none }) ∧
    (∀ l : List Char, '[' ∉ l → parseLine l = none) := by
  refine ⟨?_, ?_, parseLine_no_bracket⟩
  · intro lines hne h
    unfold parseSkillsFromReadme
    rw [splitLines_joinLines lines hne h]
  · intro label owner repoSeg h1 h2 h3 h4 h5 h6
    rw [parseLine_wfLine label owner repoSeg ⟨h1, h2⟩ ⟨h3, h4⟩ ⟨h5, h6⟩]
    simp [mkEntry, strToLower_trimChars]

/-- C6, witness: the structural part on a concrete two-line document, the
field part on the label `" My Skill "`, owner `alice`, repo segment
`tool.git`, and the skipping part on a bracketless line. -/
theorem parseSkillsFromReadme_spec_witness :
    parseSkillsFromReadme
        (joinLines ["[a](https://github.com/o/r)".toList, "skip me".toList]) =
      ["[a](https://github.com/o/r)".toList, "skip me".toList].filterMap parseLine ∧
    parseLine (wfLine " My Skill ".toList "alice".toList "tool.git".toList) =
      some { name := strToLower (trimChars " My Skill ".toList)
             owner := "alice".toList
             repo := stripGit "tool.git".toList
             url := "https://github.com/".toList ++ "alice".toList ++
               '/' :: "tool.git".toList
             parsedFrom := trimChars (wfLine " My Skill ".toList "alice".toList
               "tool.git".toList)
             repoInfo := none, safetyScore := none } ∧
    parseLine "no markdown link here".toList = none :=
  ⟨parseSkillsFromReadme_spec.1 _ (by decide) (by decide),
   parseSkillsFromReadme_spec.2.1 " My Skill ".toList "alice".toList
     "tool.git".toList (by decide) (by decide) (by decide) (by decide)
     (by decide) (by decide),
   parseSkillsFromReadme_spec.2.2 _ (by decide)⟩

/-- C7, counterexample: for a source line whose repo segment ends in
`.git`, the produced `url` keeps the `.git` suffix (the template string
interpolates the raw capture), so it is **not** the canonical
`https://<host>/<owner>/<stripped repo>` reconstruction, even though the
`repo` field itself is stripped. -/
theorem entry_url_keeps_git_suffix :
    (parseLine "[x](https://github.com/a/b.git)".toList).map SkillEntry.url =
      some "https://github.com/a/b.git".toList ∧
    (parseLine "[x](https://github.com/a/b.git)".toList).map SkillEntry.repo =
      some "b".toList ∧
    some "https://github.com/a/b.git".toList ≠
      some ("https://github.com/".toList ++ "a".toList ++
        '/' :: stripGit "b.git".toList) := by
  refine ⟨rfl, rfl, by decide⟩

/-- C7 (amended): every extracted entry's `url` is
`https://github.com/<owner>/<raw repo segment>` — built from the segment
*before* `.git` stripping — so it coincides with the canonical
reconstruction over the stripped `repo` field exactly when the segment
carries no trailing `.git`. -/
theorem entry_url_raw_segment :
    ∀ label owner repoSeg : List Char,
      label ≠ [] → ']' ∉ label → owner ≠ [] → '/' ∉ owner →
      repoSeg ≠ [] → ')' ∉ repoSeg →
      (parseLine (wfLine label owner repoSeg)).map SkillEntry.url =
        some ("https://github.com/".toList ++ owner ++ '/' :: repoSeg) ∧
      (stripGit repoSeg = repoSeg →
        (parseLine (wfLine label owner repoSeg)).map SkillEntry.url =
          some ("https://github.com/".toList ++ owner ++ '/' :: stripGit repoSeg)) := by
  intro label owner repoSeg h1 h2 h3 h4 h5 h6
  rw [parseLine_wfLine label owner repoSeg ⟨h1, h2⟩ ⟨h3, h4⟩ ⟨h5, h6⟩]
  constructor
  · rfl
  · intro hstrip
    rw [hstrip]
    rfl

/-- C7, witness: the amended theorem at a `.git`-free repo segment, where
the raw and canonical reconstructions agree. -/
theorem entry_url_raw_segment_witness :
    (parseLine (wfLine "x".toList "a".toList "b".toList)).map SkillEntry.url =
      some ("https://github.com/".toList ++ "a".toList ++ '/' :: "b".toList) ∧
    (parseLine (wfLine "x".toList "a".toList "b".toList)).map SkillEntry.url =
      some ("https://github.com/".toList ++ "a".toList ++
        '/' :: stripGit "b".toList) :=
  have h := entry_url_raw_segment "x".toList "a".toList "b".toList
    (by decide) (by decide) (by decide) (by decide) (by decide) (by decide)
  ⟨h.1, h.2 (by decide)⟩

/-! ### Claim about entry immutability -/

/-- The single line of the document used to exhibit the in-place update. -/
def toolLine : List Char := "[tool](https://github.com/alice/tool)".toList

/-- The entry the extractor creates for `toolLine`. -/
def toolEntry : SkillEntry :=
  { name := "tool".toList, owner := "alice".toList, repo := "tool".toList
    url := "https://github.com/alice/tool".toList
    parsedFrom := toolLine, repoInfo := none, safetyScore := none }

/-- C8, counterexample: entries are *not* immutable after creation —
`validateSkill` assigns `repoInfo` and `safetyScore` onto the matched
entry, so the entry it carries back differs from the entry the parse
created (its `repoInfo` and `safetyScore` fields have changed from
absent to present). -/
theorem validateSkill_updates_matched_entry :
    parseSkillsFromReadme toolLine = [toolEntry] ∧
    (validateSkill [toolEntry] "tool".toList (.error ()) 0).skill =
      some { toolEntry with repoInfo := some emptyRepoInfo, safetyScore := some 0 } ∧
    ({ toolEntry with repoInfo := some emptyRepoInfo, safetyScore := some 0 } :
      SkillEntry) ≠ toolEntry := by
  refine ⟨rfl, rfl, by decide⟩

/-- C8 (amended): the five fields the parse creates (`name`, `owner`,
`repo`, `url`, `parsedFrom`) are never changed by any later operation of
the subsystem, and parsed lists are superseded whole by the next fetch
cycle; but `validateSkill` does update the matched entry in place,
setting its `repoInfo` and `safetyScore` properties. -/
theorem validateSkill_preserves_parse_fields :
    ∀ (skills : List SkillEntry) (q : List Char) (resp : Except Unit RepoInfo)
      (now : Nat) (s : SkillEntry),
      skills.find? (entryMatches (trimChars (strToLower q))) = some s →
      ∃ s', (validateSkill skills q resp now).skill = some s' ∧
        s'.name = s.name ∧ s'.owner = s.owner ∧ s'.repo = s.repo ∧
        s'.url = s.url ∧ s'.parsedFrom = s.parsedFrom ∧
        s'.repoInfo = some (fetchRepoInfo resp) ∧
        s'.safetyScore = some (calculateSafetyScore now (fetchRepoInfo resp)) := by
  intro skills q resp now s hfind
  refine ⟨{ s with
      repoInfo := some (fetchRepoInfo resp),
      safetyScore := some (calculateSafetyScore now (fetchRepoInfo resp)) },
    ?_, rfl, rfl, rfl, rfl, rfl, rfl, rfl⟩
  simp only [validateSkill, hfind]

/-- C8, witness: the amended theorem applied to the parsed one-entry
list. -/
theorem validateSkill_preserves_parse_fields_witness :
    ∃ s', (validateSkill [toolEntry] "tool".toList (.error ()) 0).skill = some s' ∧
      s'.name = toolEntry.name ∧ s'.owner = toolEntry.owner ∧
      s'.repo = toolEntry.repo ∧ s'.url = toolEntry.url ∧
      s'.parsedFrom = toolEntry.parsedFrom ∧
      s'.repoInfo = some emptyRepoInfo ∧ s'.safetyScore = some 0 :=
  validateSkill_preserves_parse_fields [toolEntry] "tool".toList (.error ()) 0
    toolEntry (by decide)

end OpenClaw
